import Mathlib

/-!
# Verification of the unassigner core against its specification

This file gives a shallow embedding, in Lean 4, of the algorithmic core of the
unassigner repository:

* `src/unassigner/algorithm.py` — the beta-binomial mismatch model
  (`beta_binomial_pdf`, `beta_binomial_cdf`, `ConstantMismatchDistribution`)
  and the unassignment pipeline (`UnassignerAlgorithm`, `ThresholdAlgorithm`);
* `src/unassign/search_blast.py` — the hit extender (`BlastExtender`).

Python integers are embedded as `ℤ` (or `ℕ` for counts), Python floats as
exact rationals `ℚ`: the source computes the beta-binomial density in log
space via `betaln`, i.e. it computes (up to floating-point rounding) the
mathematically exact value `C(n,k)·B(k+a, n−k+b)/B(a,b)`, whose value at the
half-integer parameters used by the model is the rational number
`C(n,k)·rf(a,k)·rf(b,n−k)/rf(a+b,n)` where `rf` is the rising factorial.
DNA sequences are embedded as `List Char`, fallible code as `Except`.

The helper module `unassigner/alignment.py` (class `AlignedRegion`) and
`unassign/alignment.py` (class `AlignedSubjectQuery`) are not part of the
source under verification; where their behaviour matters it is modelled from
the specification and marked as such in doc comments.
-/

namespace Unassigner

/-- Rising factorial `rf x k = x · (x+1) ⋯ (x+k-1)`, the exact rational value
of `Γ(x+k)/Γ(x)` for `x > 0`.  Used to express the beta-function ratios of
`beta_binomial_pdf` exactly over `ℚ`. -/
def risingFac (x : ℚ) : ℕ → ℚ
  | 0 => 1
  | k + 1 => risingFac x k * (x + k)

/-- Embedding of `beta_binomial_pdf` (algorithm.py lines 13–21).
`scipy.special.comb(n, k)` is `0` when `k > n` (in particular for negative
`n`), and the function returns `0` in that case; otherwise it computes
`C(n,k)·B(k+alpha, n−k+beta)/B(alpha, beta)` in log space, whose exact value
is the rational expression below. -/
def beta_binomial_pdf (k : ℕ) (n : ℤ) (alpha beta_ : ℚ) : ℚ :=
  if (k : ℤ) ≤ n then
    ((n.toNat.choose k : ℕ) : ℚ) * risingFac alpha k * risingFac beta_ (n.toNat - k)
      / risingFac (alpha + beta_) n.toNat
  else 0

/-- Embedding of `beta_binomial_cdf` (algorithm.py lines 24–30): the while
loop sums `beta_binomial_pdf k n alpha beta` for `k = 0, 1, …, k_max`; when
`k_max < 0` the loop body never runs and the result is `0`. -/
def beta_binomial_cdf (k_max : ℤ) (n : ℤ) (alpha beta_ : ℚ) : ℚ :=
  ∑ k ∈ Finset.range (k_max + 1).toNat, beta_binomial_pdf k n alpha beta_

/-- A full query/type-strain alignment as consumed by the mismatch model and
the pipeline.  The fields `query_id`, `subject_id`, `percent_id` and
`subject_len` are the attributes read directly by `algorithm.py`.

Modelled from the spec: the class `AlignedRegion` (module
`unassigner/alignment.py`) that `ConstantMismatchDistribution.__init__` uses
to derive the trimmed observed region is not part of the source under
verification, so the region-derived quantities are carried as data:
`region_positions` (`region.alignment_len`), `region_matches`
(`region.count_matches()`) and `region_subject_len` (`region.subject_len`),
per spec §3 and §4.1. -/
structure Alignment where
  query_id : String
  subject_id : String
  percent_id : ℚ
  subject_len : ℕ
  region_positions : ℕ
  region_matches : ℕ
  region_subject_len : ℕ
deriving DecidableEq

namespace ConstantMismatchDistribution

/-- `ConstantMismatchDistribution.prior_alpha` (algorithm.py line 75). -/
def prior_alpha : ℚ := 0.5

/-- `ConstantMismatchDistribution.prior_beta` (algorithm.py line 76). -/
def prior_beta : ℚ := 0.5

/-- `self.region_mismatches` (algorithm.py line 84):
`region_positions - region_matches`, Python integer subtraction. -/
def region_mismatches (a : Alignment) : ℤ :=
  (a.region_positions : ℤ) - (a.region_matches : ℤ)

/-- `self.alpha` (algorithm.py line 86). -/
def alpha (a : Alignment) : ℚ :=
  (region_mismatches a : ℚ) + prior_alpha

/-- `self.beta` (algorithm.py line 87). -/
def beta_ (a : Alignment) : ℚ :=
  (a.region_matches : ℚ) + prior_beta

/-- `nonregion_subject_positions` (algorithm.py lines 90–91). -/
def nonregion_subject_positions (a : Alignment) : ℤ :=
  (a.subject_len : ℤ) - (a.region_subject_len : ℤ)

/-- `total_positions` (algorithm.py lines 92–93). -/
def total_positions (a : Alignment) : ℤ :=
  (a.region_positions : ℤ) + nonregion_subject_positions a

/-- `max_total_mismatches` (algorithm.py lines 95–97):
`int(math.floor((1 - min_id) * total_positions))`. -/
def max_total_mismatches (a : Alignment) (min_id : ℚ) : ℤ :=
  ⌊(1 - min_id) * (total_positions a : ℚ)⌋

/-- `max_nonregion_mismatches` (algorithm.py line 98). -/
def max_nonregion_mismatches (a : Alignment) (min_id : ℚ) : ℤ :=
  max_total_mismatches a min_id - region_mismatches a

/-- `prob_compatible` (algorithm.py lines 100–102). -/
def prob_compatible (a : Alignment) (min_id : ℚ) : ℚ :=
  beta_binomial_cdf (max_nonregion_mismatches a min_id)
    (nonregion_subject_positions a) (alpha a) (beta_ a)

/-- `prob_incompatible` (algorithm.py line 103). -/
def prob_incompatible (a : Alignment) (min_id : ℚ) : ℚ :=
  1 - prob_compatible a min_id

end ConstantMismatchDistribution

/-- A value of a result-record field: the numeric results of
`unassign_threshold` and the `"NA"` markers of the null result. -/
inductive RVal where
  | str : String → RVal
  | int : ℤ → RVal
  | nat : ℕ → RVal
  | rat : ℚ → RVal
deriving DecidableEq

/-- The result record returned by
`ConstantMismatchDistribution.unassign_threshold` (algorithm.py lines
105–113), with one field per key of the Python dict.  The sentinel
`ThresholdAlgorithm.null_result` sets every field to the string `"NA"`
(algorithm.py lines 198–203). -/
structure UnassignResult where
  typestrain_id : RVal
  probability_incompatible : RVal
  region_mismatches : RVal
  region_positions : RVal
  region_matches : RVal
  nonregion_positions_in_subject : RVal
  max_nonregion_mismatches : RVal
deriving DecidableEq

namespace ConstantMismatchDistribution

/-- Embedding of `unassign_threshold` (algorithm.py lines 89–113). -/
def unassign_threshold (a : Alignment) (min_id : ℚ) : UnassignResult :=
  { typestrain_id := .str a.subject_id
    probability_incompatible := .rat (prob_incompatible a min_id)
    region_mismatches := .int (region_mismatches a)
    region_positions := .nat a.region_positions
    region_matches := .nat a.region_matches
    nonregion_positions_in_subject := .int (nonregion_subject_positions a)
    max_nonregion_mismatches := .int (max_nonregion_mismatches a min_id) }

end ConstantMismatchDistribution

/-- The default `min_id` of `unassign_threshold` (algorithm.py line 89). -/
def default_min_id : ℚ := 0.975

namespace UnassignerAlgorithm

/-- `self.alignment_min_percent_id` (algorithm.py line 127). -/
def alignment_min_percent_id : ℚ := 0.975

/-- Stable insertion into a list already sorted by `percent_id` descending:
the new element goes in front of the first element with a strictly smaller
`percent_id`, hence after all earlier elements with an equal key. -/
def insertDesc (a : Alignment) : List Alignment → List Alignment
  | [] => [a]
  | b :: bs => if b.percent_id ≤ a.percent_id then a :: b :: bs else b :: insertDesc a bs

/-- Embedding of `sorted(query_alignments, key=attrgetter('percent_id'),
reverse=True)` (algorithm.py lines 177–179): Python's `sorted` is a stable
sort, and with `reverse=True` it orders by key descending while keeping the
original relative order of elements with equal keys — exactly the stable
insertion sort below. -/
def sortDesc : List Alignment → List Alignment
  | [] => []
  | a :: l => insertDesc a (sortDesc l)

/-- Embedding of `UnassignerAlgorithm._filter_alignments` (algorithm.py lines
176–186), with the threshold `self.alignment_min_percent_id` passed
explicitly. -/
def filter_alignments (threshold : ℚ) (l : List Alignment) : List Alignment :=
  let sorted_alignments := sortDesc l
  let filtered_alignments :=
    sorted_alignments.filter fun a => decide (threshold < a.percent_id)
  if sorted_alignments ≠ [] ∧ filtered_alignments = [] then
    sorted_alignments.take 1
  else filtered_alignments

/-- Embedding of `UnassignerAlgorithm._align_query_to_type_strain`
(algorithm.py lines 161–174).  The external aligner's output for the batch is
the parameter `alignments`; grouping the alignments by query id with a
`defaultdict` and then iterating the query ids in input order is the same as
filtering the alignment list per query id (order of hits preserved). -/
def align_query_to_type_strain (queries : List (String × List Char))
    (alignments : List Alignment) : List Alignment :=
  (queries.map Prod.fst).flatMap fun query_id =>
    filter_alignments alignment_min_percent_id
      (alignments.filter fun a => decide (a.query_id = query_id))

/-- `ThresholdAlgorithm.null_result` (algorithm.py lines 198–203): every
result key mapped to `"NA"`. -/
def null_result : UnassignResult :=
  { typestrain_id := .str "NA"
    probability_incompatible := .str "NA"
    region_mismatches := .str "NA"
    region_positions := .str "NA"
    region_matches := .str "NA"
    nonregion_positions_in_subject := .str "NA"
    max_nonregion_mismatches := .str "NA" }

/-- Embedding of `UnassignerAlgorithm.unassign` (algorithm.py lines 129–159)
as run by `ThresholdAlgorithm` with the `ConstantMismatchDistribution`
mismatcher: the retained alignments are evaluated with
`unassign_threshold()` at the default `min_id`, the `(query_id, result)`
pairs are grouped by query id, and one `(query_id, results)` pair is yielded
per input query in input order, with `[null_result]` for a query whose group
is empty. -/
def unassign (queries : List (String × List Char))
    (alignments : List Alignment) : List (String × List UnassignResult) :=
  let results :=
    (align_query_to_type_strain queries alignments).map fun a =>
      (a.query_id, ConstantMismatchDistribution.unassign_threshold a default_min_id)
  (queries.map Prod.fst).map fun query_id =>
    let query_results :=
      (results.filter fun r => decide (r.1 = query_id)).map Prod.snd
    (query_id, if query_results = [] then [null_result] else query_results)

end UnassignerAlgorithm

end Unassigner

namespace SearchBlast

/-- A parsed BLAST hit (search_blast.py lines 10–16), restricted to the
fields read by `BlastExtender`: ids, 1-based inclusive coordinates, full
lengths, and the locally aligned substrings. -/
structure Hit where
  qseqid : String
  sseqid : String
  qstart : ℤ
  qend : ℤ
  sstart : ℤ
  send : ℤ
  qlen : ℤ
  slen : ℤ
  qseq : List Char
  sseq : List Char
deriving DecidableEq

/-- The aligned pair returned by `BlastExtender.extend_hit`, constructed as
`AlignedSubjectQuery((qseqid, aligned_query), (sseqid, aligned_subject))`.
The class itself lives in `unassign/alignment.py`, which is not part of the
source under verification; only the constructor arguments are recorded
here. -/
structure AlignedSubjectQuery where
  query_id : String
  aligned_query : List Char
  subject_id : String
  aligned_subject : List Char
deriving DecidableEq

/-- Modelled from the spec: `AlignedSubjectQuery.query_len`, the ungapped
full length of the query — spec §3 describes the post-extension Alignment
record as carrying "subject_len, query_len (ungapped full lengths)", i.e. the
number of non-gap characters of the aligned string.  The implementing class
in `unassign/alignment.py` is not part of the source under verification. -/
def AlignedSubjectQuery.query_len (p : AlignedSubjectQuery) : ℕ :=
  p.aligned_query.countP fun c => decide (c ≠ '-')

/-- Modelled from the spec: `AlignedSubjectQuery.subject_len`, the ungapped
full length of the subject (spec §3); see `AlignedSubjectQuery.query_len`. -/
def AlignedSubjectQuery.subject_len (p : AlignedSubjectQuery) : ℕ :=
  p.aligned_subject.countP fun c => decide (c ≠ '-')

/-- The distinct failure modes of `BlastExtender.extend_hit`:
`missingQuery` is the `KeyError` of `self.seqs[hit['qseqid']]`,
`queryLengthMismatch`/`subjectLengthMismatch` are the two `assert`
statements, `missingSubject` is a failed subject fetch, and the remaining
four are the `ValueError`s of `_add_endgaps_left` / `_add_endgaps_right`
(`unalignedLeft` = "Unaligned sequence on left", `startLessThanOne` =
"Query or subject start position less than 1", `unalignedRight` =
"Unaligned sequence on right", `endGreaterThanLength` = "Query or subject
end position greater than length"). -/
inductive ExtendError where
  | missingQuery : ExtendError
  | queryLengthMismatch : ExtendError
  | missingSubject : ExtendError
  | subjectLengthMismatch : ExtendError
  | unalignedLeft : ExtendError
  | startLessThanOne : ExtendError
  | unalignedRight : ExtendError
  | endGreaterThanLength : ExtendError
deriving DecidableEq

/-- The Python string `"-" * k`. -/
def gaps (k : ℕ) : List Char := List.replicate k '-'

namespace BlastExtender

/-- Embedding of `BlastExtender._needs_realignment` (search_blast.py lines
89–95). -/
def needs_realignment (hit : Hit) : Bool :=
  (decide (1 < hit.qstart) && decide (1 < hit.sstart)) ||
    (decide (hit.qend < hit.qlen) && decide (hit.send < hit.slen))

/-- Embedding of `BlastExtender._is_global` (search_blast.py lines 97–103). -/
def is_global (hit : Hit) : Bool :=
  decide (hit.qstart = 1) && decide (hit.sstart = 1) &&
    decide (hit.qend = hit.qlen) && decide (hit.send = hit.slen)

/-- Embedding of `BlastExtender._add_endgaps_left` (search_blast.py lines
133–149).  `qseq[:e]` is `List.take e`. -/
def add_endgaps_left (hit : Hit) (qseq sseq : List Char) :
    Except ExtendError (List Char × List Char) :=
  if hit.qstart = 1 ∧ hit.sstart = 1 then .ok ([], [])
  else if 1 < hit.qstart ∧ hit.sstart = 1 then
    let endgap_len := (hit.qstart - 1).toNat
    .ok (qseq.take endgap_len, gaps endgap_len)
  else if hit.qstart = 1 ∧ 1 < hit.sstart then
    let endgap_len := (hit.sstart - 1).toNat
    .ok (gaps endgap_len, sseq.take endgap_len)
  else if 1 < hit.qstart ∧ 1 < hit.sstart then .error .unalignedLeft
  else .error .startLessThanOne

/-- Embedding of `BlastExtender._add_endgaps_right` (search_blast.py lines
151–167).  The Python slice `s[-e:]` with `e ≥ 1` is the last
`min e s.length` characters, i.e. `s.drop (s.length - e)`.  Note the guard
of the `unalignedRight` branch compares `send` with `qlen`, exactly as
source line 165 does. -/
def add_endgaps_right (hit : Hit) (qseq sseq : List Char) :
    Except ExtendError (List Char × List Char) :=
  if hit.qend = hit.qlen ∧ hit.send = hit.slen then .ok ([], [])
  else if hit.qend < hit.qlen ∧ hit.send = hit.slen then
    let endgap_len := (hit.qlen - hit.qend).toNat
    .ok (qseq.drop (qseq.length - endgap_len), gaps endgap_len)
  else if hit.qend = hit.qlen ∧ hit.send < hit.slen then
    let endgap_len := (hit.slen - hit.send).toNat
    .ok (gaps endgap_len, sseq.drop (sseq.length - endgap_len))
  else if hit.qend < hit.qlen ∧ hit.send < hit.qlen then .error .unalignedRight
  else .error .endGreaterThanLength

end BlastExtender

/-- The collaborators of `BlastExtender` (search_blast.py lines 84–87 and
169–189): `seqs` is the query dictionary `self.seqs` (lookup may fail with a
`KeyError`), `getSubject` is `_get_subject_seq` (an external `blastdbcmd`
call), and `alignSemiglobal` is the external `align_semiglobal` /
`Bio.pairwise2` full semiglobal alignment, returning the pair
`(aligned_query, aligned_subject)`. -/
structure BlastExtender where
  seqs : String → Option (List Char)
  getSubject : String → Option (List Char)
  alignSemiglobal : List Char → List Char → List Char × List Char

namespace BlastExtender

/-- Embedding of `BlastExtender.extend_hit` (search_blast.py lines 105–131). -/
def extend_hit (x : BlastExtender) (hit : Hit) :
    Except ExtendError AlignedSubjectQuery :=
  if is_global hit then
    .ok ⟨hit.qseqid, hit.qseq, hit.sseqid, hit.sseq⟩
  else
    match x.seqs hit.qseqid with
    | none => .error .missingQuery
    | some qseq =>
      if (qseq.length : ℤ) ≠ hit.qlen then .error .queryLengthMismatch
      else
        match x.getSubject hit.sseqid with
        | none => .error .missingSubject
        | some sseq =>
          if (sseq.length : ℤ) ≠ hit.slen then .error .subjectLengthMismatch
          else if needs_realignment hit then
            let r := x.alignSemiglobal qseq sseq
            .ok ⟨hit.qseqid, r.1, hit.sseqid, r.2⟩
          else
            match add_endgaps_left hit qseq sseq with
            | .error e => .error e
            | .ok (qleft, sleft) =>
              match add_endgaps_right hit qseq sseq with
              | .error e => .error e
              | .ok (qright, sright) =>
                .ok ⟨hit.qseqid, qleft ++ hit.qseq ++ qright,
                     hit.sseqid, sleft ++ hit.sseq ++ sright⟩

end BlastExtender

end SearchBlast

namespace Unassigner

/-- The numerator of the beta-binomial density with the common denominator
`rf (a+b) ν` cleared: `C(ν,k) · rf a k · rf b (ν−k)`. -/
def bbnum (ν : ℕ) (a b : ℚ) (k : ℕ) : ℚ :=
  ((ν.choose k : ℕ) : ℚ) * risingFac a k * risingFac b (ν - k)

/-- The sign of `phi ν a b k = k(b−1) − a(ν−k)` decides, at index `k`, which
of the two densities `BetaBin(ν, a, b)` and `BetaBin(ν, a+1, b−1)` is larger;
`phi` is monotone in `k`, which gives the single-crossing property. -/
def phi (ν : ℕ) (a b : ℚ) (k : ℕ) : ℚ :=
  (k : ℚ) * (b - 1) - a * ((ν - k : ℕ) : ℚ)

end Unassigner

namespace Unassigner.UnassignerAlgorithm

/-! ## Properties of the stable descending sort and the alignment filter -/

theorem mem_insertDesc {x a : Unassigner.Alignment} :
    ∀ {l : List Unassigner.Alignment}, x ∈ insertDesc a l → x = a ∨ x ∈ l := by
  intro l
  induction l with
  | nil =>
    intro h
    simp only [insertDesc, List.mem_singleton] at h
    exact Or.inl h
  | cons b bs ih =>
    intro h
    simp only [insertDesc] at h
    split at h
    · rcases List.mem_cons.mp h with h1 | h1
      · exact Or.inl h1
      · exact Or.inr h1
    · rcases List.mem_cons.mp h with h1 | h1
      · exact Or.inr (List.mem_cons.mpr (Or.inl h1))
      · rcases ih h1 with h2 | h2
        · exact Or.inl h2
        · exact Or.inr (List.mem_cons.mpr (Or.inr h2))

theorem self_mem_insertDesc (a : Unassigner.Alignment) :
    ∀ l : List Unassigner.Alignment, a ∈ insertDesc a l := by
  intro l
  induction l with
  | nil => simp [insertDesc]
  | cons b bs ih =>
    simp only [insertDesc]
    split
    · exact List.mem_cons_self a _
    · exact List.mem_cons.mpr (Or.inr ih)

theorem mem_insertDesc_of_mem {x : Unassigner.Alignment} (a : Unassigner.Alignment) :
    ∀ {l : List Unassigner.Alignment}, x ∈ l → x ∈ insertDesc a l := by
  intro l
  induction l with
  | nil => intro h; cases h
  | cons b bs ih =>
    intro h
    simp only [insertDesc]
    split
    · exact List.mem_cons.mpr (Or.inr h)
    · rcases List.mem_cons.mp h with h1 | h1
      · exact List.mem_cons.mpr (Or.inl h1)
      · exact List.mem_cons.mpr (Or.inr (ih h1))

theorem mem_sortDesc_iff {x : Unassigner.Alignment} :
    ∀ {l : List Unassigner.Alignment}, x ∈ sortDesc l ↔ x ∈ l := by
  intro l
  induction l with
  | nil => simp [sortDesc]
  | cons a as ih =>
    simp only [sortDesc]
    constructor
    · intro h
      rcases mem_insertDesc h with h1 | h1
      · exact List.mem_cons.mpr (Or.inl h1)
      · exact List.mem_cons.mpr (Or.inr (ih.mp h1))
    · intro h
      rcases List.mem_cons.mp h with h1 | h1
      · subst h1
        exact self_mem_insertDesc x _
      · exact mem_insertDesc_of_mem a (ih.mpr h1)

/-- The head of the descending sort of a non-empty list is a maximal element
of the list. -/
theorem sortDesc_head_max :
    ∀ l : List Unassigner.Alignment, l ≠ [] →
      ∃ b rest, sortDesc l = b :: rest ∧ b ∈ l ∧
        ∀ x ∈ l, x.percent_id ≤ b.percent_id := by
  intro l
  induction l with
  | nil => intro h; exact absurd rfl h
  | cons a as ih =>
    intro _
    rcases Nat.eq_zero_or_pos as.length with hlen | hlen
    · have has : as = [] := List.eq_nil_of_length_eq_zero hlen
      subst has
      exact ⟨a, [], by simp [sortDesc, insertDesc], List.mem_cons_self a _,
        by intro x hx; simp at hx; subst hx; exact le_refl _⟩
    · have has : as ≠ [] := by
        intro h
        subst h
        simp at hlen
      obtain ⟨b, rest, hsort, hmem, hmax⟩ := ih has
      simp only [sortDesc, hsort, insertDesc]
      by_cases hab : b.percent_id ≤ a.percent_id
      · refine ⟨a, b :: rest, by rw [if_pos hab], List.mem_cons_self a _, ?_⟩
        intro x hx
        rcases List.mem_cons.mp hx with h1 | h1
        · subst h1; exact le_refl _
        · exact le_trans (hmax x h1) hab
      · refine ⟨b, insertDesc a rest, by rw [if_neg hab],
          List.mem_cons.mpr (Or.inr hmem), ?_⟩
        intro x hx
        rcases List.mem_cons.mp hx with h1 | h1
        · subst h1; exact le_of_not_le hab
        · exact hmax x h1

/-- Every alignment retained by `_filter_alignments` came from the input
list. -/
theorem mem_filter_alignments {x : Unassigner.Alignment} {t : ℚ}
    {l : List Unassigner.Alignment} (h : x ∈ filter_alignments t l) : x ∈ l := by
  simp only [filter_alignments] at h
  split at h
  · exact mem_sortDesc_iff.mp (List.mem_of_mem_take h)
  · exact mem_sortDesc_iff.mp (List.mem_of_mem_filter h)

/-- When at least one candidate passes the threshold, the filter returns
exactly the passing candidates of the descending sort. -/
theorem filter_alignments_of_exists_pass {t : ℚ} {l : List Unassigner.Alignment}
    (h : ∃ a ∈ l, t < a.percent_id) :
    filter_alignments t l =
      (sortDesc l).filter fun a => decide (t < a.percent_id) := by
  obtain ⟨a, hal, hat⟩ := h
  simp only [filter_alignments]
  rw [if_neg]
  intro ⟨_, hfil⟩
  have ha : a ∈ (sortDesc l).filter fun a => decide (t < a.percent_id) :=
    List.mem_filter.mpr ⟨mem_sortDesc_iff.mpr hal, by simpa using hat⟩
  rw [hfil] at ha
  cases ha

/-- When no candidate passes the threshold and the list is non-empty, the
filter returns exactly one candidate, of maximal percent identity. -/
theorem filter_alignments_of_none_pass {t : ℚ} {l : List Unassigner.Alignment}
    (hne : l ≠ []) (hall : ∀ a ∈ l, a.percent_id ≤ t) :
    ∃ b, filter_alignments t l = [b] ∧ b ∈ l ∧
      ∀ a ∈ l, a.percent_id ≤ b.percent_id := by
  obtain ⟨b, rest, hsort, hmem, hmax⟩ := sortDesc_head_max l hne
  refine ⟨b, ?_, hmem, hmax⟩
  simp only [filter_alignments]
  have hfil : (sortDesc l).filter (fun a => decide (t < a.percent_id)) = [] := by
    rw [List.filter_eq_nil_iff]
    intro x hx
    have := hall x (mem_sortDesc_iff.mp hx)
    simpa using not_lt.mpr this
  rw [if_pos]
  · rw [hsort]
    rfl
  · constructor
    · rw [hsort]
      simp
    · exact hfil

end Unassigner.UnassignerAlgorithm

namespace SearchBlast.BlastExtender

/-! ## Length bookkeeping of the endgap-padding path -/

theorem add_endgaps_left_ok_length {hit : SearchBlast.Hit} {qs ss l r : List Char}
    (hq : hit.qstart - 1 ≤ (qs.length : ℤ)) (hs : hit.sstart - 1 ≤ (ss.length : ℤ))
    (h : add_endgaps_left hit qs ss = .ok (l, r)) : l.length = r.length := by
  unfold add_endgaps_left at h
  split_ifs at h with h1 h2 h3 h4
  · cases h
    rfl
  · cases h
    simp only [List.length_take, SearchBlast.gaps, List.length_replicate]
    omega
  · cases h
    simp only [List.length_take, SearchBlast.gaps, List.length_replicate]
    omega

theorem add_endgaps_right_ok_length {hit : SearchBlast.Hit} {qs ss l r : List Char}
    (hq : 0 ≤ hit.qend) (hs : 0 ≤ hit.send)
    (hql : (qs.length : ℤ) = hit.qlen) (hsl : (ss.length : ℤ) = hit.slen)
    (h : add_endgaps_right hit qs ss = .ok (l, r)) : l.length = r.length := by
  unfold add_endgaps_right at h
  split_ifs at h with h1 h2 h3 h4
  · cases h
    rfl
  · cases h
    simp only [List.length_drop, SearchBlast.gaps, List.length_replicate]
    omega
  · cases h
    simp only [List.length_drop, SearchBlast.gaps, List.length_replicate]
    omega

end SearchBlast.BlastExtender

namespace Unassigner

/-! ## Properties of the beta-binomial density -/

theorem risingFac_pos {x : ℚ} (hx : 0 < x) : ∀ k : ℕ, 0 < risingFac x k
  | 0 => one_pos
  | k + 1 => by
    have hk := risingFac_pos hx k
    have : (0 : ℚ) < x + k := by positivity
    simpa [risingFac] using mul_pos hk this

theorem risingFac_nonneg {x : ℚ} (hx : 0 < x) (k : ℕ) : 0 ≤ risingFac x k :=
  (risingFac_pos hx k).le

/-- Two ways to peel a factor off a rising factorial:
`x · rf (x+1) k = rf x k · (x + k)`. -/
theorem risingFac_succ_left (x : ℚ) : ∀ k : ℕ,
    x * risingFac (x + 1) k = risingFac x k * (x + k)
  | 0 => by simp [risingFac]
  | k + 1 => by
    have ih := risingFac_succ_left x k
    simp only [risingFac]
    rw [← mul_assoc, ih]
    push_cast
    ring

theorem bbnum_nonneg {a b : ℚ} (ha : 0 < a) (hb : 0 < b) (ν k : ℕ) :
    0 ≤ bbnum ν a b k := by
  unfold bbnum
  have h1 := risingFac_nonneg ha k
  have h2 := risingFac_nonneg hb (ν - k)
  positivity

theorem bbnum_pos {a b : ℚ} (ha : 0 < a) (hb : 0 < b) {ν k : ℕ} (hk : k ≤ ν) :
    0 < bbnum ν a b k := by
  unfold bbnum
  have h1 := risingFac_pos ha k
  have h2 := risingFac_pos hb (ν - k)
  have h3 : 0 < ν.choose k := Nat.choose_pos hk
  have h4 : (0 : ℚ) < (ν.choose k : ℚ) := by exact_mod_cast h3
  positivity

theorem bbnum_eq_zero_of_gt {a b : ℚ} {ν k : ℕ} (hk : ν < k) :
    bbnum ν a b k = 0 := by
  unfold bbnum
  rw [Nat.choose_eq_zero_of_lt hk]
  simp

/-- Chu–Vandermonde identity for rising factorials:
`∑ k ≤ ν, C(ν,k) · rf a k · rf b (ν−k) = rf (a+b) ν`.  This is the statement
that the beta-binomial density sums to one, with denominators cleared. -/
theorem bbnum_vandermonde (a b : ℚ) : ∀ ν : ℕ,
    ∑ k ∈ Finset.range (ν + 1), bbnum ν a b k = risingFac (a + b) ν := by
  intro ν
  induction ν with
  | zero => simp [bbnum, risingFac]
  | succ ν ih =>
    have hsplit : ∀ k : ℕ, bbnum (ν + 1) a b (k + 1) =
        ((ν.choose k : ℕ) : ℚ) * risingFac a (k + 1) * risingFac b (ν - k) +
          ((ν.choose (k + 1) : ℕ) : ℚ) * risingFac a (k + 1) * risingFac b (ν - k) := by
      intro k
      unfold bbnum
      rw [Nat.choose_succ_succ]
      have hsub : ν + 1 - (k + 1) = ν - k := by omega
      rw [hsub]
      push_cast
      ring
    have hf0 : bbnum (ν + 1) a b 0 =
        ((ν.choose 0 : ℕ) : ℚ) * risingFac a 0 * risingFac b (ν + 1 - 0) := by
      unfold bbnum
      simp
    -- peel off the k = 0 term and split every other term with Pascal's rule
    rw [Finset.sum_range_succ' _ (ν + 1)]
    simp only [hsplit, hf0]
    rw [Finset.sum_add_distrib]
    -- the second Pascal half, together with the k = 0 term, is the sum of
    -- f k = C(ν,k) · rf a k · rf b (ν+1−k) over k ∈ range (ν+2)
    have hshift :
        (∑ k ∈ Finset.range (ν + 1),
            ((ν.choose (k + 1) : ℕ) : ℚ) * risingFac a (k + 1) * risingFac b (ν - k)) +
          ((ν.choose 0 : ℕ) : ℚ) * risingFac a 0 * risingFac b (ν + 1 - 0) =
        ∑ k ∈ Finset.range (ν + 1),
            ((ν.choose k : ℕ) : ℚ) * risingFac a k * risingFac b (ν + 1 - k) := by
      have h1 :
          ∑ k ∈ Finset.range (ν + 2),
              ((ν.choose k : ℕ) : ℚ) * risingFac a k * risingFac b (ν + 1 - k) =
            (∑ k ∈ Finset.range (ν + 1),
              ((ν.choose (k + 1) : ℕ) : ℚ) * risingFac a (k + 1) *
                risingFac b (ν + 1 - (k + 1))) +
              ((ν.choose 0 : ℕ) : ℚ) * risingFac a 0 * risingFac b (ν + 1 - 0) :=
        Finset.sum_range_succ' _ (ν + 1)
      have h2 :
          ∑ k ∈ Finset.range (ν + 2),
              ((ν.choose k : ℕ) : ℚ) * risingFac a k * risingFac b (ν + 1 - k) =
            ∑ k ∈ Finset.range (ν + 1),
              ((ν.choose k : ℕ) : ℚ) * risingFac a k * risingFac b (ν + 1 - k) := by
        rw [Finset.sum_range_succ]
        rw [Nat.choose_eq_zero_of_lt (by omega : ν < ν + 1)]
        simp
      have h3 : ∀ k : ℕ, ν + 1 - (k + 1) = ν - k := fun k => by omega
      simp only [h3] at h1
      rw [h2] at h1
      exact h1.symm
    rw [add_assoc, hshift]
    -- now merge the two sums termwise into (a + b + ν) · bbnum ν a b k
    have hmerge : ∀ k ∈ Finset.range (ν + 1),
        ((ν.choose k : ℕ) : ℚ) * risingFac a (k + 1) * risingFac b (ν - k) +
          ((ν.choose k : ℕ) : ℚ) * risingFac a k * risingFac b (ν + 1 - k) =
        bbnum ν a b k * (a + b + ν) := by
      intro k hk
      have hkν : k ≤ ν := by
        have := Finset.mem_range.mp hk
        omega
      have hsub : ν + 1 - k = (ν - k) + 1 := by omega
      have hcast : ((ν - k : ℕ) : ℚ) = (ν : ℚ) - (k : ℚ) := by
        push_cast [Nat.cast_sub hkν]
        ring
      rw [hsub]
      unfold bbnum
      simp only [risingFac]
      rw [hcast]
      ring
    rw [← Finset.sum_add_distrib, Finset.sum_congr rfl hmerge, ← Finset.sum_mul, ih]
    simp only [risingFac]

theorem beta_binomial_pdf_eq_bbnum_div {n : ℤ} (hn : 0 ≤ n) (k : ℕ) (a b : ℚ) :
    beta_binomial_pdf k n a b = bbnum n.toNat a b k / risingFac (a + b) n.toNat := by
  unfold beta_binomial_pdf bbnum
  by_cases h : (k : ℤ) ≤ n
  · rw [if_pos h]
  · rw [if_neg h]
    have hk : n.toNat < k := by omega
    rw [Nat.choose_eq_zero_of_lt hk]
    simp

theorem beta_binomial_pdf_eq_zero_of_neg {n : ℤ} (hn : n < 0) (k : ℕ) (a b : ℚ) :
    beta_binomial_pdf k n a b = 0 := by
  unfold beta_binomial_pdf
  rw [if_neg (by omega)]

theorem beta_binomial_pdf_nonneg {a b : ℚ} (ha : 0 < a) (hb : 0 < b) (k : ℕ) (n : ℤ) :
    0 ≤ beta_binomial_pdf k n a b := by
  rcases lt_or_le n 0 with hn | hn
  · rw [beta_binomial_pdf_eq_zero_of_neg hn]
  · rw [beta_binomial_pdf_eq_bbnum_div hn]
    exact div_nonneg (bbnum_nonneg ha hb _ _) (risingFac_nonneg (by positivity) _)

/-- The beta-binomial density sums to one over its support. -/
theorem sum_beta_binomial_pdf {a b : ℚ} (ha : 0 < a) (hb : 0 < b) {n : ℤ}
    (hn : 0 ≤ n) :
    ∑ k ∈ Finset.range (n.toNat + 1), beta_binomial_pdf k n a b = 1 := by
  have hD : 0 < risingFac (a + b) n.toNat := risingFac_pos (by positivity) _
  calc ∑ k ∈ Finset.range (n.toNat + 1), beta_binomial_pdf k n a b
      = ∑ k ∈ Finset.range (n.toNat + 1),
          bbnum n.toNat a b k / risingFac (a + b) n.toNat := by
        exact Finset.sum_congr rfl fun k _ => beta_binomial_pdf_eq_bbnum_div hn k a b
    _ = (∑ k ∈ Finset.range (n.toNat + 1), bbnum n.toNat a b k) /
          risingFac (a + b) n.toNat := by
        rw [Finset.sum_div]
    _ = 1 := by rw [bbnum_vandermonde]; exact div_self hD.ne'

theorem beta_binomial_cdf_nonneg {a b : ℚ} (ha : 0 < a) (hb : 0 < b)
    (k_max n : ℤ) : 0 ≤ beta_binomial_cdf k_max n a b :=
  Finset.sum_nonneg fun k _ => beta_binomial_pdf_nonneg ha hb k n

theorem phi_mono {a b : ℚ} (ha : 0 < a) (hb : 1 < b) (ν : ℕ) {k k' : ℕ}
    (hkk : k ≤ k') : phi ν a b k ≤ phi ν a b k' := by
  unfold phi
  have h1 : (k : ℚ) * (b - 1) ≤ (k' : ℚ) * (b - 1) := by
    have : (k : ℚ) ≤ (k' : ℚ) := by exact_mod_cast hkk
    nlinarith
  have h2 : ((ν - k' : ℕ) : ℚ) ≤ ((ν - k : ℕ) : ℚ) := by
    exact_mod_cast Nat.sub_le_sub_left hkk ν
  nlinarith

/-- Cross-multiplied identity relating the shifted and unshifted numerators:
`bbnum ν (a+1) (b−1) k · a · (b−1+(ν−k)) = bbnum ν a b k · (a+k) · (b−1)`. -/
theorem bbnum_cross (ν : ℕ) (a b : ℚ) (k : ℕ) :
    bbnum ν (a + 1) (b - 1) k * (a * ((b - 1) + ((ν - k : ℕ) : ℚ))) =
      bbnum ν a b k * ((a + k) * (b - 1)) := by
  unfold bbnum
  have h1 : a * risingFac (a + 1) k = risingFac a k * (a + k) :=
    risingFac_succ_left a k
  have h2 : (b - 1) * risingFac b (ν - k) =
      risingFac (b - 1) (ν - k) * ((b - 1) + ((ν - k : ℕ) : ℚ)) := by
    have := risingFac_succ_left (b - 1) (ν - k)
    rw [sub_add_cancel] at this
    exact this
  linear_combination
    (((ν.choose k : ℕ) : ℚ) * risingFac (b - 1) (ν - k) *
        ((b - 1) + ((ν - k : ℕ) : ℚ))) * h1 -
      (((ν.choose k : ℕ) : ℚ) * risingFac a k * (a + (k : ℚ))) * h2

theorem bbnum_shift_le {a b : ℚ} (ha : 0 < a) (hb : 1 < b) {ν k : ℕ}
    (hphi : phi ν a b k ≤ 0) :
    bbnum ν (a + 1) (b - 1) k ≤ bbnum ν a b k := by
  have hcross := bbnum_cross ν a b k
  have hden : 0 < a * ((b - 1) + ((ν - k : ℕ) : ℚ)) := by
    have h0 : (0 : ℚ) ≤ ((ν - k : ℕ) : ℚ) := Nat.cast_nonneg _
    nlinarith
  have hf : 0 ≤ bbnum ν a b k := bbnum_nonneg ha (by linarith) ν k
  have hmul : (a + k) * (b - 1) ≤ a * ((b - 1) + ((ν - k : ℕ) : ℚ)) := by
    unfold phi at hphi
    nlinarith
  have : bbnum ν (a + 1) (b - 1) k * (a * ((b - 1) + ((ν - k : ℕ) : ℚ))) ≤
      bbnum ν a b k * (a * ((b - 1) + ((ν - k : ℕ) : ℚ))) := by
    rw [hcross]
    exact mul_le_mul_of_nonneg_left hmul hf
  exact le_of_mul_le_mul_right this hden

theorem bbnum_le_shift {a b : ℚ} (ha : 0 < a) (hb : 1 < b) {ν k : ℕ}
    (hphi : 0 ≤ phi ν a b k) :
    bbnum ν a b k ≤ bbnum ν (a + 1) (b - 1) k := by
  have hcross := bbnum_cross ν a b k
  have hden : 0 < a * ((b - 1) + ((ν - k : ℕ) : ℚ)) := by
    have h0 : (0 : ℚ) ≤ ((ν - k : ℕ) : ℚ) := Nat.cast_nonneg _
    nlinarith
  have hf : 0 ≤ bbnum ν a b k := bbnum_nonneg ha (by linarith) ν k
  have hmul : a * ((b - 1) + ((ν - k : ℕ) : ℚ)) ≤ (a + k) * (b - 1) := by
    unfold phi at hphi
    nlinarith
  have : bbnum ν a b k * (a * ((b - 1) + ((ν - k : ℕ) : ℚ))) ≤
      bbnum ν (a + 1) (b - 1) k * (a * ((b - 1) + ((ν - k : ℕ) : ℚ))) := by
    rw [hcross]
    exact mul_le_mul_of_nonneg_left hmul hf
  exact le_of_mul_le_mul_right this hden

/-- First-order stochastic dominance with denominators cleared: every partial
sum of the numerators of `BetaBin(ν, a+1, b−1)` is at most the corresponding
partial sum for `BetaBin(ν, a, b)`. -/
theorem bbnum_partial_dominance {a b : ℚ} (ha : 0 < a) (hb : 1 < b) (ν j : ℕ) :
    ∑ k ∈ Finset.range j, bbnum ν (a + 1) (b - 1) k ≤
      ∑ k ∈ Finset.range j, bbnum ν a b k := by
  rcases Nat.eq_zero_or_pos j with hj | hj
  · subst hj
    simp
  by_cases hphi : phi ν a b (j - 1) ≤ 0
  · -- below the crossing point every shifted term is smaller
    apply Finset.sum_le_sum
    intro k hk
    have hk' : k ≤ j - 1 := by
      have := Finset.mem_range.mp hk
      omega
    exact bbnum_shift_le ha hb (le_trans (phi_mono ha hb ν hk') hphi)
  · -- above the crossing point: compare with the equal total sums
    push_neg at hphi
    set M := max j (ν + 1) with hM
    have hjM : j ≤ M := le_max_left _ _
    have htotal : ∀ (a' b' : ℚ),
        ∑ k ∈ Finset.range M, bbnum ν a' b' k = risingFac (a' + b') ν := by
      intro a' b'
      rw [← bbnum_vandermonde a' b' ν]
      symm
      apply Finset.sum_subset (Finset.range_subset.mpr (le_max_right _ _))
      intro k _ hk
      have : ν < k := by
        by_contra hcon
        exact hk (Finset.mem_range.mpr (by omega))
      exact bbnum_eq_zero_of_gt this
    have htf : ∑ k ∈ Finset.range M, bbnum ν a b k = risingFac (a + b) ν :=
      htotal a b
    have htg : ∑ k ∈ Finset.range M, bbnum ν (a + 1) (b - 1) k =
        risingFac (a + b) ν := by
      rw [htotal (a + 1) (b - 1)]
      norm_num
    have hsplitf := Finset.sum_range_add_sum_Ico (bbnum ν a b) hjM
    have hsplitg := Finset.sum_range_add_sum_Ico (bbnum ν (a + 1) (b - 1)) hjM
    have htail : ∑ k ∈ Finset.Ico j M, bbnum ν a b k ≤
        ∑ k ∈ Finset.Ico j M, bbnum ν (a + 1) (b - 1) k := by
      apply Finset.sum_le_sum
      intro k hk
      have hk' : j - 1 ≤ k := by
        have := (Finset.mem_Ico.mp hk).1
        omega
      exact bbnum_le_shift ha hb (le_trans (le_of_lt hphi) (phi_mono ha hb ν hk'))
    linarith

/-- First-order stochastic dominance for the CDF embedding: shifting one unit
of posterior mass from matches to mismatches (`a ↦ a+1`, `b ↦ b−1`) can only
decrease the CDF at any threshold. -/
theorem beta_binomial_cdf_dominance {a b : ℚ} (ha : 0 < a) (hb : 1 < b)
    (k_max n : ℤ) :
    beta_binomial_cdf k_max n (a + 1) (b - 1) ≤ beta_binomial_cdf k_max n a b := by
  rcases lt_or_le n 0 with hn | hn
  · unfold beta_binomial_cdf
    rw [Finset.sum_congr rfl fun k _ => beta_binomial_pdf_eq_zero_of_neg hn k (a + 1) (b - 1),
      Finset.sum_congr rfl fun k _ => beta_binomial_pdf_eq_zero_of_neg hn k a b]
  · unfold beta_binomial_cdf
    have hab : (0 : ℚ) < a + b := by linarith
    have hD : 0 < risingFac (a + b) n.toNat := risingFac_pos hab _
    have hg : ∀ k : ℕ, beta_binomial_pdf k n (a + 1) (b - 1) =
        bbnum n.toNat (a + 1) (b - 1) k / risingFac (a + b) n.toNat := by
      intro k
      rw [beta_binomial_pdf_eq_bbnum_div hn]
      norm_num
    rw [Finset.sum_congr rfl fun k _ => hg k,
      Finset.sum_congr rfl fun k _ => beta_binomial_pdf_eq_bbnum_div hn k a b,
      ← Finset.sum_div, ← Finset.sum_div]
    exact (div_le_div_iff_of_pos_right hD).mpr (bbnum_partial_dominance ha hb n.toNat _)

theorem beta_binomial_cdf_mono_k_max {a b : ℚ} (ha : 0 < a) (hb : 0 < b)
    {t t' : ℤ} (htt : t ≤ t') (n : ℤ) :
    beta_binomial_cdf t n a b ≤ beta_binomial_cdf t' n a b := by
  unfold beta_binomial_cdf
  apply Finset.sum_le_sum_of_subset_of_nonneg
  · exact Finset.range_subset.mpr (Int.toNat_le_toNat (by omega))
  · exact fun k _ _ => beta_binomial_pdf_nonneg ha hb k n

/-- One step of the monotonicity argument: turning one observed match into an
observed mismatch raises `alpha` by one, lowers `beta` by one, and lowers the
mismatch budget `k_max` by one; the CDF can only decrease. -/
theorem beta_binomial_cdf_step {a b : ℚ} (ha : 0 < a) (hb : 1 < b)
    (t n : ℤ) :
    beta_binomial_cdf (t - 1) n (a + 1) (b - 1) ≤ beta_binomial_cdf t n a b :=
  le_trans (beta_binomial_cdf_dominance ha hb (t - 1) n)
    (beta_binomial_cdf_mono_k_max ha (by linarith) (by omega) n)

/-- Iterating `beta_binomial_cdf_step` `d` times: moving `d` observed
positions from matches to mismatches (with the total mismatch budget `K`
fixed) can only decrease the CDF. -/
theorem beta_binomial_cdf_chain (K n : ℤ) :
    ∀ (d : ℕ) (m : ℤ), 0 ≤ m → ∀ mat : ℕ,
      beta_binomial_cdf (K - (m + d)) n ((m : ℚ) + d + 1 / 2) ((mat : ℚ) + 1 / 2) ≤
        beta_binomial_cdf (K - m) n ((m : ℚ) + 1 / 2) (((mat + d : ℕ) : ℚ) + 1 / 2) := by
  intro d
  induction d with
  | zero =>
    intro m _ mat
    norm_num
  | succ d ih =>
    intro m hm mat
    have step := beta_binomial_cdf_step (a := (m : ℚ) + 1 / 2)
      (b := ((mat : ℚ) + (d : ℚ)) + 1 + 1 / 2)
      (by have h0 : (0 : ℚ) ≤ (m : ℚ) := by exact_mod_cast hm
          linarith)
      (by have h0 : (0 : ℚ) ≤ (mat : ℚ) + (d : ℚ) := by positivity
          linarith)
      (K - m) n
    have ihm := ih (m + 1) (by omega) mat
    have e1 : K - (m + 1 + (d : ℤ)) = K - (m + ((d : ℕ) + 1 : ℕ)) := by
      push_cast
      ring
    have e2 : ((m + 1 : ℤ) : ℚ) + (d : ℚ) + 1 / 2 = (m : ℚ) + ((d : ℕ) + 1 : ℕ) + 1 / 2 := by
      push_cast
      ring
    have e3 : K - (m + 1) = K - m - 1 := by ring
    have e4 : ((m + 1 : ℤ) : ℚ) + 1 / 2 = ((m : ℚ) + 1 / 2) + 1 := by
      push_cast
      ring
    have e5 : ((mat + d : ℕ) : ℚ) + 1 / 2 = (((mat : ℚ) + (d : ℚ)) + 1 + 1 / 2) - 1 := by
      push_cast
      ring
    rw [e1, e2, e3, e4, e5] at ihm
    have e6 : ((mat + (d + 1) : ℕ) : ℚ) + 1 / 2 = ((mat : ℚ) + (d : ℚ)) + 1 + 1 / 2 := by
      push_cast
      ring
    rw [e6]
    exact le_trans ihm step

/-- With a negative mismatch budget the CDF is the empty sum. -/
theorem beta_binomial_cdf_of_neg {k_max : ℤ} (h : k_max < 0) (n : ℤ)
    (alpha beta_ : ℚ) : beta_binomial_cdf k_max n alpha beta_ = 0 := by
  unfold beta_binomial_cdf
  rw [show (k_max + 1).toNat = 0 by omega]
  simp

theorem beta_binomial_cdf_le_one {a b : ℚ} (ha : 0 < a) (hb : 0 < b)
    (k_max n : ℤ) : beta_binomial_cdf k_max n a b ≤ 1 := by
  rcases lt_or_le n 0 with hn | hn
  · unfold beta_binomial_cdf
    rw [Finset.sum_congr rfl fun k _ => beta_binomial_pdf_eq_zero_of_neg hn k a b]
    simp
  · unfold beta_binomial_cdf
    set T := (k_max + 1).toNat with hT
    set N := n.toNat with hN
    have hle : ∑ k ∈ Finset.range T, beta_binomial_pdf k n a b ≤
        ∑ k ∈ Finset.range (max T (N + 1)), beta_binomial_pdf k n a b :=
      Finset.sum_le_sum_of_subset_of_nonneg
        (Finset.range_subset.mpr (le_max_left _ _))
        (fun k _ _ => beta_binomial_pdf_nonneg ha hb k n)
    have heq : ∑ k ∈ Finset.range (max T (N + 1)), beta_binomial_pdf k n a b =
        ∑ k ∈ Finset.range (N + 1), beta_binomial_pdf k n a b := by
      symm
      apply Finset.sum_subset (Finset.range_subset.mpr (le_max_right _ _))
      intro k _ hk
      have hkN : N + 1 ≤ k := by
        by_contra hcon
        exact hk (Finset.mem_range.mpr (by omega))
      unfold beta_binomial_pdf
      rw [if_neg (by omega)]
    rw [heq] at hle
    rw [sum_beta_binomial_pdf ha hb hn] at hle
    exact hle

end Unassigner

/-! ## The claims -/

open Unassigner Unassigner.ConstantMismatchDistribution Unassigner.UnassignerAlgorithm

/-- **C1**: for every alignment, the mismatch model sets
`alpha = region_mismatches + 0.5` and `beta = region_matches + 0.5` with
`prior_alpha = prior_beta = 0.5`; and for the configured `min_id` (default
`0.975`) it computes `max_total_mismatches = floor((1 − min_id) ·
(region_positions + nonregion_subject_positions))` and
`max_nonregion_mismatches = max_total_mismatches − region_mismatches`, the
latter two being returned in the result record. -/
theorem claim_C1_posterior_and_threshold_parameters (a : Unassigner.Alignment) (min_id : ℚ) :
    alpha a = (region_mismatches a : ℚ) + 1 / 2 ∧
    beta_ a = (a.region_matches : ℚ) + 1 / 2 ∧
    prior_alpha = 1 / 2 ∧
    prior_beta = 1 / 2 ∧
    region_mismatches a = (a.region_positions : ℤ) - (a.region_matches : ℤ) ∧
    default_min_id = 0.975 ∧
    max_total_mismatches a min_id =
      ⌊(1 - min_id) *
        ((a.region_positions : ℚ) + ((nonregion_subject_positions a : ℤ) : ℚ))⌋ ∧
    max_nonregion_mismatches a min_id =
      max_total_mismatches a min_id - region_mismatches a ∧
    (unassign_threshold a min_id).max_nonregion_mismatches =
      RVal.int (max_nonregion_mismatches a min_id) ∧
    (unassign_threshold a min_id).nonregion_positions_in_subject =
      RVal.int (nonregion_subject_positions a) := by
  refine ⟨?_, ?_, ?_, ?_, rfl, ?_, ?_, rfl, rfl, rfl⟩
  · unfold alpha prior_alpha
    norm_num
  · unfold beta_ prior_beta
    norm_num
  · unfold prior_alpha
    norm_num
  · unfold prior_beta
    norm_num
  · unfold default_min_id
    norm_num
  · unfold max_total_mismatches total_positions
    push_cast
    rfl

/-- **C2**: the beta-binomial CDF at a negative bound `k_max < 0` is exactly
`0` for every `n`, `alpha`, `beta`; consequently, whenever
`max_nonregion_mismatches` is negative, `prob_compatible` is exactly `0` and
`probability_incompatible` is exactly `1`. -/
theorem claim_C2_negative_budget_gives_certainty :
    (∀ (k_max n : ℤ) (alpha beta_ : ℚ), k_max < 0 →
      beta_binomial_cdf k_max n alpha beta_ = 0) ∧
    (∀ (a : Unassigner.Alignment) (min_id : ℚ), max_nonregion_mismatches a min_id < 0 →
      prob_compatible a min_id = 0 ∧
      prob_incompatible a min_id = 1 ∧
      (unassign_threshold a min_id).probability_incompatible = RVal.rat 1) := by
  constructor
  · intro k_max n alpha beta_ h
    exact beta_binomial_cdf_of_neg h n alpha beta_
  · intro a min_id h
    have h0 : prob_compatible a min_id = 0 :=
      beta_binomial_cdf_of_neg h _ _ _
    have h1 : prob_incompatible a min_id = 1 := by
      unfold prob_incompatible
      rw [h0]
      norm_num
    exact ⟨h0, h1, by unfold unassign_threshold; rw [h1]⟩

/-- Witness for C2 at the concrete input `k_max = -1`, `n = 7`, `alpha = 1`,
`beta = 2`, and at an alignment with `region_positions = 10`,
`region_matches = 9`, `subject_len = region_subject_len = 10` (so
`max_nonregion_mismatches = ⌊0.025·10⌋ − 1 = −1 < 0`). -/
theorem claim_C2_witness :
    beta_binomial_cdf (-1) 7 1 2 = 0 ∧
    max_nonregion_mismatches (⟨"q", "s", 1, 10, 10, 9, 10⟩ : Unassigner.Alignment) 0.975 < 0 ∧
    prob_incompatible (⟨"q", "s", 1, 10, 10, 9, 10⟩ : Unassigner.Alignment) 0.975 = 1 := by
  have hneg : max_nonregion_mismatches (⟨"q", "s", 1, 10, 10, 9, 10⟩ : Unassigner.Alignment)
      0.975 < 0 := by
    unfold max_nonregion_mismatches max_total_mismatches total_positions
      nonregion_subject_positions region_mismatches
    norm_num
  exact ⟨claim_C2_negative_budget_gives_certainty.1 (-1) 7 1 2 (by norm_num),
    hneg,
    (claim_C2_negative_budget_gives_certainty.2 _ 0.975 hneg).2.1⟩

/-- **C10**: for every alignment processed by the mismatch model (with the
region counts consistent, `region_matches ≤ region_positions`), the
`probability_incompatible` field of the returned result lies in `[0, 1]`. -/
theorem claim_C10_probability_incompatible_in_unit_interval
    (a : Unassigner.Alignment) (min_id : ℚ) (h : a.region_matches ≤ a.region_positions) :
    (unassign_threshold a min_id).probability_incompatible =
      RVal.rat (prob_incompatible a min_id) ∧
    0 ≤ prob_incompatible a min_id ∧ prob_incompatible a min_id ≤ 1 := by
  have hA : 0 < alpha a := by
    unfold alpha region_mismatches prior_alpha
    have hq : (a.region_matches : ℚ) ≤ (a.region_positions : ℚ) := by
      exact_mod_cast h
    push_cast
    norm_num
    linarith
  have hB : 0 < beta_ a := by
    unfold beta_ prior_beta
    have hq : (0 : ℚ) ≤ (a.region_matches : ℚ) := Nat.cast_nonneg _
    norm_num
    linarith
  refine ⟨rfl, ?_, ?_⟩
  · unfold prob_incompatible prob_compatible
    have := beta_binomial_cdf_le_one hA hB
      (max_nonregion_mismatches a min_id) (nonregion_subject_positions a)
    linarith
  · unfold prob_incompatible prob_compatible
    have := beta_binomial_cdf_nonneg hA hB
      (max_nonregion_mismatches a min_id) (nonregion_subject_positions a)
    linarith

/-- Witness for C10 at an alignment with `region_positions = 10`,
`region_matches = 9`, `subject_len = 20`, `region_subject_len = 10`. -/
theorem claim_C10_witness :
    (⟨"q", "s", 1, 20, 10, 9, 10⟩ : Unassigner.Alignment).region_matches ≤
      (⟨"q", "s", 1, 20, 10, 9, 10⟩ : Unassigner.Alignment).region_positions ∧
    0 ≤ prob_incompatible (⟨"q", "s", 1, 20, 10, 9, 10⟩ : Unassigner.Alignment) 0.975 ∧
    prob_incompatible (⟨"q", "s", 1, 20, 10, 9, 10⟩ : Unassigner.Alignment) 0.975 ≤ 1 :=
  ⟨by norm_num,
    (claim_C10_probability_incompatible_in_unit_interval
      ⟨"q", "s", 1, 20, 10, 9, 10⟩ 0.975 (by norm_num)).2⟩

/-- Counterexample to **C3** as stated: two alignments with equal
`region_positions` (10) and equal `nonregion_subject_positions` (10), where
the second has strictly more region mismatches (2 vs 1), yet
`probability_incompatible` is `1` for both (their mismatch budgets are both
negative), so it is not strictly larger. -/
theorem claim_C3_counterexample :
    region_mismatches (⟨"q", "s", 1, 20, 10, 9, 10⟩ : Unassigner.Alignment) <
      region_mismatches (⟨"q", "s", 1, 20, 10, 8, 10⟩ : Unassigner.Alignment) ∧
    (⟨"q", "s", 1, 20, 10, 8, 10⟩ : Unassigner.Alignment).region_positions =
      (⟨"q", "s", 1, 20, 10, 9, 10⟩ : Unassigner.Alignment).region_positions ∧
    nonregion_subject_positions (⟨"q", "s", 1, 20, 10, 8, 10⟩ : Unassigner.Alignment) =
      nonregion_subject_positions (⟨"q", "s", 1, 20, 10, 9, 10⟩ : Unassigner.Alignment) ∧
    prob_incompatible (⟨"q", "s", 1, 20, 10, 8, 10⟩ : Unassigner.Alignment)
        default_min_id =
      prob_incompatible (⟨"q", "s", 1, 20, 10, 9, 10⟩ : Unassigner.Alignment)
        default_min_id ∧
    ¬(prob_incompatible (⟨"q", "s", 1, 20, 10, 9, 10⟩ : Unassigner.Alignment)
        default_min_id <
      prob_incompatible (⟨"q", "s", 1, 20, 10, 8, 10⟩ : Unassigner.Alignment)
        default_min_id) := by
  have h8 : prob_incompatible (⟨"q", "s", 1, 20, 10, 8, 10⟩ : Unassigner.Alignment)
      default_min_id = 1 := by
    have hneg : max_nonregion_mismatches
        (⟨"q", "s", 1, 20, 10, 8, 10⟩ : Unassigner.Alignment) default_min_id < 0 := by
      unfold max_nonregion_mismatches max_total_mismatches total_positions
        nonregion_subject_positions region_mismatches default_min_id
      norm_num
    unfold prob_incompatible prob_compatible
    rw [beta_binomial_cdf_of_neg hneg]
    norm_num
  have h9 : prob_incompatible (⟨"q", "s", 1, 20, 10, 9, 10⟩ : Unassigner.Alignment)
      default_min_id = 1 := by
    have hneg : max_nonregion_mismatches
        (⟨"q", "s", 1, 20, 10, 9, 10⟩ : Unassigner.Alignment) default_min_id < 0 := by
      unfold max_nonregion_mismatches max_total_mismatches total_positions
        nonregion_subject_positions region_mismatches default_min_id
      norm_num
    unfold prob_incompatible prob_compatible
    rw [beta_binomial_cdf_of_neg hneg]
    norm_num
  refine ⟨?_, rfl, rfl, ?_, ?_⟩
  · unfold region_mismatches
    norm_num
  · rw [h8, h9]
  · rw [h8, h9]
    exact lt_irrefl 1

/-- **C3** (amended): holding `region_positions` and
`nonregion_subject_positions` fixed, an alignment with strictly more region
mismatches (hence fewer matches) has a `probability_incompatible` at least as
large — not, as the claim states, strictly larger: when both mismatch budgets
are negative (or both exceed the support of the unobserved remainder) the two
probabilities are equal (see the counterexample). -/
theorem claim_C3_amended_monotone_probability
    (a1 a2 : Unassigner.Alignment) (min_id : ℚ)
    (hpos : a2.region_positions = a1.region_positions)
    (hnonr : nonregion_subject_positions a2 = nonregion_subject_positions a1)
    (hvalid : a1.region_matches ≤ a1.region_positions)
    (hmore : region_mismatches a1 < region_mismatches a2) :
    prob_incompatible a1 min_id ≤ prob_incompatible a2 min_id := by
  have hmat : a2.region_matches < a1.region_matches := by
    unfold region_mismatches at hmore
    omega
  set d : ℕ := a1.region_matches - a2.region_matches with hd
  set m : ℤ := region_mismatches a1 with hm
  have hm0 : 0 ≤ m := by
    rw [hm]
    unfold region_mismatches
    omega
  have hK : max_total_mismatches a2 min_id = max_total_mismatches a1 min_id := by
    unfold max_total_mismatches total_positions
    rw [hnonr, hpos]
  have hm2 : region_mismatches a2 = m + d := by
    rw [hm]
    unfold region_mismatches
    omega
  have hmat1 : a2.region_matches + d = a1.region_matches := by omega
  have chain := beta_binomial_cdf_chain (max_total_mismatches a1 min_id)
    (nonregion_subject_positions a1) d m hm0 a2.region_matches
  have hcdf : prob_compatible a2 min_id ≤ prob_compatible a1 min_id := by
    unfold prob_compatible max_nonregion_mismatches
    unfold alpha beta_ prior_alpha prior_beta
    rw [hK, hm2, hnonr, ← hm, ← hmat1]
    have e2 : ((m + (d : ℤ) : ℤ) : ℚ) + 0.5 = (m : ℚ) + (d : ℚ) + 1 / 2 := by
      push_cast
      norm_num
    have e3 : ((m : ℤ) : ℚ) + 0.5 = (m : ℚ) + 1 / 2 := by norm_num
    have e4 : ((a2.region_matches : ℕ) : ℚ) + 0.5 =
        ((a2.region_matches : ℕ) : ℚ) + 1 / 2 := by norm_num
    have e5 : (((a2.region_matches + d : ℕ) : ℕ) : ℚ) + 0.5 =
        (((a2.region_matches + d : ℕ) : ℕ) : ℚ) + 1 / 2 := by norm_num
    rw [e2, e3, e4, e5]
    exact chain
  unfold prob_incompatible
  linarith

/-- Witness for the amended C3 at the alignments
`a1 = (positions 10, matches 9, subject_len 30, region_subject_len 15)` and
`a2 = (positions 10, matches 8, subject_len 30, region_subject_len 15)`. -/
theorem claim_C3_amended_witness :
    (⟨"q", "s", 1, 30, 10, 8, 15⟩ : Unassigner.Alignment).region_positions =
      (⟨"q", "s", 1, 30, 10, 9, 15⟩ : Unassigner.Alignment).region_positions ∧
    nonregion_subject_positions (⟨"q", "s", 1, 30, 10, 8, 15⟩ : Unassigner.Alignment) =
      nonregion_subject_positions (⟨"q", "s", 1, 30, 10, 9, 15⟩ : Unassigner.Alignment) ∧
    (⟨"q", "s", 1, 30, 10, 9, 15⟩ : Unassigner.Alignment).region_matches ≤
      (⟨"q", "s", 1, 30, 10, 9, 15⟩ : Unassigner.Alignment).region_positions ∧
    region_mismatches (⟨"q", "s", 1, 30, 10, 9, 15⟩ : Unassigner.Alignment) <
      region_mismatches (⟨"q", "s", 1, 30, 10, 8, 15⟩ : Unassigner.Alignment) ∧
    prob_incompatible (⟨"q", "s", 1, 30, 10, 9, 15⟩ : Unassigner.Alignment) 0.975 ≤
      prob_incompatible (⟨"q", "s", 1, 30, 10, 8, 15⟩ : Unassigner.Alignment) 0.975 :=
  ⟨rfl, rfl, by norm_num,
    by unfold region_mismatches; norm_num,
    claim_C3_amended_monotone_probability
      ⟨"q", "s", 1, 30, 10, 9, 15⟩ ⟨"q", "s", 1, 30, 10, 8, 15⟩ 0.975
      rfl rfl (by norm_num) (by unfold region_mismatches; norm_num)⟩

/-- **C8**: the per-query filter sorts candidates by percent identity
descending and retains exactly those strictly above the threshold; if the
list is non-empty but none pass, it retains exactly the single
highest-identity candidate.  In particular, identities
`[0.99, 0.96, 0.80]` under threshold `0.975` yield exactly `[0.99]`, and
`[0.90, 0.80]` yield exactly `[0.90]`. -/
theorem claim_C8_filter_retains_passing_or_single_best
    (t : ℚ) (l : List Unassigner.Alignment) :
    ((∃ a ∈ l, t < a.percent_id) →
      filter_alignments t l =
        (sortDesc l).filter fun a => decide (t < a.percent_id)) ∧
    (l ≠ [] → (∀ a ∈ l, a.percent_id ≤ t) →
      ∃ b, filter_alignments t l = [b] ∧ b ∈ l ∧
        ∀ a ∈ l, a.percent_id ≤ b.percent_id) ∧
    filter_alignments 0.975
        [⟨"q", "s1", 0.99, 0, 0, 0, 0⟩, ⟨"q", "s2", 0.96, 0, 0, 0, 0⟩,
          ⟨"q", "s3", 0.80, 0, 0, 0, 0⟩] =
      [⟨"q", "s1", 0.99, 0, 0, 0, 0⟩] ∧
    filter_alignments 0.975
        [⟨"q", "s1", 0.90, 0, 0, 0, 0⟩, ⟨"q", "s2", 0.80, 0, 0, 0, 0⟩] =
      [⟨"q", "s1", 0.90, 0, 0, 0, 0⟩] := by
  refine ⟨fun h => filter_alignments_of_exists_pass h,
    fun hne hall => filter_alignments_of_none_pass hne hall, ?_, ?_⟩
  · norm_num [filter_alignments, sortDesc, insertDesc, List.filter]
  · norm_num [filter_alignments, sortDesc, insertDesc, List.filter]
    simp

/-- Witness for C8 at threshold `0.9` and a two-element list in which one
candidate passes (first conjunct) and, separately, at a singleton list in
which none passes (second conjunct). -/
theorem claim_C8_witness :
    (∃ a ∈ [(⟨"q", "s1", 0.99, 0, 0, 0, 0⟩ : Unassigner.Alignment),
        ⟨"q", "s2", 0.5, 0, 0, 0, 0⟩], (0.9 : ℚ) < a.percent_id) ∧
    filter_alignments 0.9
        [(⟨"q", "s1", 0.99, 0, 0, 0, 0⟩ : Unassigner.Alignment),
          ⟨"q", "s2", 0.5, 0, 0, 0, 0⟩] =
      (sortDesc [(⟨"q", "s1", 0.99, 0, 0, 0, 0⟩ : Unassigner.Alignment),
          ⟨"q", "s2", 0.5, 0, 0, 0, 0⟩]).filter
        (fun a => decide ((0.9 : ℚ) < a.percent_id)) ∧
    ∃ b, filter_alignments 0.9
        [(⟨"q", "s3", 0.5, 0, 0, 0, 0⟩ : Unassigner.Alignment)] = [b] ∧
      b ∈ [(⟨"q", "s3", 0.5, 0, 0, 0, 0⟩ : Unassigner.Alignment)] ∧
      ∀ a ∈ [(⟨"q", "s3", 0.5, 0, 0, 0, 0⟩ : Unassigner.Alignment)],
        a.percent_id ≤ b.percent_id := by
  have hpass : ∃ a ∈ [(⟨"q", "s1", 0.99, 0, 0, 0, 0⟩ : Unassigner.Alignment),
      ⟨"q", "s2", 0.5, 0, 0, 0, 0⟩], (0.9 : ℚ) < a.percent_id :=
    ⟨⟨"q", "s1", 0.99, 0, 0, 0, 0⟩, by norm_num, by norm_num⟩
  exact ⟨hpass,
    (claim_C8_filter_retains_passing_or_single_best 0.9 _).1 hpass,
    (claim_C8_filter_retains_passing_or_single_best 0.9 _).2.1
      (by simp) (by intro a ha; simp at ha; subst ha; norm_num)⟩

/-- **C9**: the pipeline yields exactly one `(query_id, results)` pair per
input query, in input order; a query with zero candidate alignments yields
exactly one sentinel result with every result field set to `"NA"`. -/
theorem claim_C9_pipeline_order_and_sentinel
    (queries : List (String × List Char)) (alignments : List Unassigner.Alignment) :
    (unassign queries alignments).map Prod.fst = queries.map Prod.fst ∧
    (unassign queries alignments).length = queries.length ∧
    null_result = ⟨.str "NA", .str "NA", .str "NA", .str "NA", .str "NA",
      .str "NA", .str "NA"⟩ ∧
    ∀ (i : ℕ) (qid : String), (queries.map Prod.fst)[i]? = some qid →
      alignments.filter (fun al => decide (al.query_id = qid)) = [] →
      (unassign queries alignments)[i]? = some (qid, [null_result]) := by
  refine ⟨?_, ?_, rfl, ?_⟩
  · simp only [unassign, List.map_map]
    rfl
  · simp only [unassign, List.length_map]
  · intro i qid hi hfilter
    simp only [unassign, List.getElem?_map, hi, Option.map_some']
    rw [if_pos]
    rw [List.map_eq_nil_iff, List.filter_eq_nil_iff]
    rintro r hr
    simp only [List.mem_map] at hr
    obtain ⟨a, ha, rfl⟩ := hr
    simp only [decide_eq_true_eq]
    intro haq
    simp only [align_query_to_type_strain, List.mem_flatMap] at ha
    obtain ⟨qid', hq', hmem⟩ := ha
    have ha2 := mem_filter_alignments hmem
    have ha3 : a ∈ alignments.filter (fun al => decide (al.query_id = qid)) := by
      rw [List.mem_filter]
      exact ⟨(List.mem_filter.mp ha2).1, by simpa using haq⟩
    rw [hfilter] at ha3
    cases ha3

/-- Witness for C9 at one query `"q1"` and an empty alignment list. -/
theorem claim_C9_witness :
    (([("q1", ([] : List Char))].map Prod.fst)[0]? = some "q1") ∧
    (([] : List Unassigner.Alignment).filter
      (fun al => decide (al.query_id = "q1")) = []) ∧
    (unassign [("q1", ([] : List Char))] [])[0]? = some ("q1", [null_result]) :=
  ⟨rfl, rfl,
    (claim_C9_pipeline_order_and_sentinel [("q1", ([] : List Char))] []).2.2.2
      0 "q1" rfl rfl⟩

open SearchBlast SearchBlast.BlastExtender

/-- **C4**: a hit with unaligned sequence on both query and subject on the
same end (left: `qstart > 1` and `sstart > 1`; or right: `qend < qlen` and
`send < slen`) routes through the full semiglobal realignment of the two
complete sequences and returns its result — never the endgap-padding result
built from the hit's local coordinates. -/
theorem claim_C4_realignment_route (x : SearchBlast.BlastExtender)
    (hit : Hit) (qs ss : List Char)
    (hq : x.seqs hit.qseqid = some qs) (hql : (qs.length : ℤ) = hit.qlen)
    (hs : x.getSubject hit.sseqid = some ss) (hsl : (ss.length : ℤ) = hit.slen)
    (hneed : needs_realignment hit = true) :
    extend_hit x hit =
      Except.ok ⟨hit.qseqid, (x.alignSemiglobal qs ss).1,
        hit.sseqid, (x.alignSemiglobal qs ss).2⟩ := by
  have hprops : (1 < hit.qstart ∧ 1 < hit.sstart) ∨
      (hit.qend < hit.qlen ∧ hit.send < hit.slen) := by
    simpa [needs_realignment] using hneed
  have hng : is_global hit = false := by
    rw [Bool.eq_false_iff]
    intro hg
    simp only [is_global, Bool.and_eq_true, decide_eq_true_eq] at hg
    omega
  simp [extend_hit, hng, hq, hs, hql, hsl, hneed]

/-- Witness for C4 at a hit overhanging left on both sides
(`qstart = sstart = 2`). -/
theorem claim_C4_witness :
    needs_realignment
      (⟨"q1", "s1", 2, 2, 2, 2, 2, 2, ['C'], ['T']⟩ : Hit) = true ∧
    extend_hit
      (⟨fun _ => some ['A', 'C'], fun _ => some ['G', 'T'],
        fun q s => (q, s)⟩ : SearchBlast.BlastExtender)
      (⟨"q1", "s1", 2, 2, 2, 2, 2, 2, ['C'], ['T']⟩ : Hit) =
      Except.ok ⟨"q1", ['A', 'C'], "s1", ['G', 'T']⟩ :=
  ⟨rfl,
    claim_C4_realignment_route
      ⟨fun _ => some ['A', 'C'], fun _ => some ['G', 'T'], fun q s => (q, s)⟩
      ⟨"q1", "s1", 2, 2, 2, 2, 2, 2, ['C'], ['T']⟩
      ['A', 'C'] ['G', 'T'] rfl rfl rfl rfl rfl⟩

/-- Counterexample to **C5** as stated: a hit with `qstart = 0 < 1` that
also overhangs on the right on both sides (`qend < qlen`, `send < slen`)
routes through realignment and returns an alignment — it does not fail with
a coordinate-inconsistency error. -/
theorem claim_C5_counterexample :
    (⟨"q1", "s1", 0, 3, 1, 3, 5, 5, ['A', 'C', 'G'],
      ['A', 'C', 'G']⟩ : Hit).qstart < 1 ∧
    extend_hit
      (⟨fun _ => some ['A', 'C', 'G', 'T', 'A'],
        fun _ => some ['A', 'C', 'G', 'T', 'A'],
        fun q s => (q, s)⟩ : SearchBlast.BlastExtender)
      (⟨"q1", "s1", 0, 3, 1, 3, 5, 5, ['A', 'C', 'G'], ['A', 'C', 'G']⟩ : Hit) =
      Except.ok ⟨"q1", ['A', 'C', 'G', 'T', 'A'], "s1",
        ['A', 'C', 'G', 'T', 'A']⟩ := by
  exact ⟨by norm_num, rfl⟩

/-- **C5** (amended): a hit with a start coordinate less than 1 that is
*not* routed to realignment (the realignment path discards the local
coordinates entirely, see the counterexample) and whose sequences are
available with consistent lengths fails with the coordinate-inconsistency
error "Query or subject start position less than 1" instead of returning an
alignment. -/
theorem claim_C5_amended_bad_start_fails (x : SearchBlast.BlastExtender)
    (hit : Hit) (qs ss : List Char)
    (hq : x.seqs hit.qseqid = some qs) (hql : (qs.length : ℤ) = hit.qlen)
    (hs : x.getSubject hit.sseqid = some ss) (hsl : (ss.length : ℤ) = hit.slen)
    (hstart : hit.qstart < 1 ∨ hit.sstart < 1)
    (hnoreal : needs_realignment hit = false) :
    extend_hit x hit = Except.error ExtendError.startLessThanOne := by
  have hng : is_global hit = false := by
    rw [Bool.eq_false_iff]
    intro hg
    simp only [is_global, Bool.and_eq_true, decide_eq_true_eq] at hg
    omega
  have hleft : add_endgaps_left hit qs ss =
      Except.error ExtendError.startLessThanOne := by
    unfold add_endgaps_left
    rw [if_neg (by omega), if_neg (by omega), if_neg (by omega),
      if_neg (by omega)]
  simp [extend_hit, hng, hq, hs, hql, hsl, hnoreal, hleft]

/-- Witness for the amended C5 at a hit with `qstart = 0` that is global on
the right end (so no realignment is triggered). -/
theorem claim_C5_amended_witness :
    (⟨"q1", "s1", 0, 5, 1, 5, 5, 5, ['A', 'C', 'G', 'T', 'A'],
      ['A', 'C', 'G', 'T', 'A']⟩ : Hit).qstart < 1 ∧
    needs_realignment
      (⟨"q1", "s1", 0, 5, 1, 5, 5, 5, ['A', 'C', 'G', 'T', 'A'],
        ['A', 'C', 'G', 'T', 'A']⟩ : Hit) = false ∧
    extend_hit
      (⟨fun _ => some ['A', 'C', 'G', 'T', 'A'],
        fun _ => some ['A', 'C', 'G', 'T', 'A'],
        fun q s => (q, s)⟩ : SearchBlast.BlastExtender)
      (⟨"q1", "s1", 0, 5, 1, 5, 5, 5, ['A', 'C', 'G', 'T', 'A'],
        ['A', 'C', 'G', 'T', 'A']⟩ : Hit) =
      Except.error ExtendError.startLessThanOne :=
  ⟨by norm_num, rfl,
    claim_C5_amended_bad_start_fails
      ⟨fun _ => some ['A', 'C', 'G', 'T', 'A'],
        fun _ => some ['A', 'C', 'G', 'T', 'A'], fun q s => (q, s)⟩
      ⟨"q1", "s1", 0, 5, 1, 5, 5, 5, ['A', 'C', 'G', 'T', 'A'],
        ['A', 'C', 'G', 'T', 'A']⟩
      ['A', 'C', 'G', 'T', 'A'] ['A', 'C', 'G', 'T', 'A']
      rfl rfl rfl rfl (Or.inl (by norm_num)) rfl⟩

/-- **C6**: for a hit overhanging only on the query's left by `k` positions
(`qstart = k+1 > 1`, `sstart = 1`), the extended query's left pad is the
query's first `k` bases and the extended subject's left pad is `k` gap
characters; and in every endgap-padding case (well-formed coordinates,
equally long aligned substrings), the two extended strings returned by
`extend_hit` have equal length. -/
theorem claim_C6_left_pad_and_equal_lengths (hit : Hit) (qs ss : List Char)
    (k : ℕ) (hk : 1 ≤ k) (hqstart : hit.qstart = (k : ℤ) + 1)
    (hsstart : hit.sstart = 1) :
    add_endgaps_left hit qs ss = Except.ok (qs.take k, gaps k) ∧
    ∀ (x' : SearchBlast.BlastExtender) (hit' : Hit) (qs' ss' : List Char)
      (r : AlignedSubjectQuery),
      x'.seqs hit'.qseqid = some qs' → (qs'.length : ℤ) = hit'.qlen →
      x'.getSubject hit'.sseqid = some ss' → (ss'.length : ℤ) = hit'.slen →
      needs_realignment hit' = false →
      is_global hit' = false →
      1 ≤ hit'.qstart → hit'.qstart ≤ hit'.qend → hit'.qend ≤ hit'.qlen →
      1 ≤ hit'.sstart → hit'.sstart ≤ hit'.send → hit'.send ≤ hit'.slen →
      hit'.qseq.length = hit'.sseq.length →
      extend_hit x' hit' = Except.ok r →
      r.aligned_query.length = r.aligned_subject.length := by
  constructor
  · unfold add_endgaps_left
    rw [if_neg (by omega), if_pos ⟨by omega, hsstart⟩, hqstart]
    norm_num
  · intro x' hit' qs' ss' r hq hql hs hsl hnoreal hng h1 h2 h3 h4 h5 h6 hlen hok
    simp only [extend_hit, hng, Bool.false_eq_true, if_false, hq, hql, ne_eq,
      not_true_eq_false, hs, hsl, hnoreal, ite_false, ite_true] at hok
    rcases hL : add_endgaps_left hit' qs' ss' with e | ⟨ql, sl⟩
    · rw [hL] at hok
      cases hok
    · rcases hR : add_endgaps_right hit' qs' ss' with e | ⟨qr, sr⟩
      · rw [hL, hR] at hok
        cases hok
      · rw [hL, hR] at hok
        cases hok
        have hLlen : ql.length = sl.length :=
          add_endgaps_left_ok_length (by omega) (by omega) hL
        have hRlen : qr.length = sr.length :=
          add_endgaps_right_ok_length (by omega) (by omega) hql hsl hR
        simp only [AlignedSubjectQuery.mk.injEq] at *
        simp only [List.length_append]
        omega

/-- Witness for C6 at a hit with `qstart = 3` (`k = 2`), `sstart = 1`,
global on the right end. -/
theorem claim_C6_witness :
    add_endgaps_left
      (⟨"q1", "s1", 3, 5, 1, 3, 5, 3, ['G', 'T', 'A'], ['G', 'T', 'A']⟩ : Hit)
      ['A', 'C', 'G', 'T', 'A'] ['G', 'T', 'A'] =
      Except.ok (['A', 'C'], ['-', '-']) ∧
    (⟨"q1", ['A', 'C', 'G', 'T', 'A'], "s1",
        ['-', '-', 'G', 'T', 'A']⟩ : AlignedSubjectQuery).aligned_query.length =
      (⟨"q1", ['A', 'C', 'G', 'T', 'A'], "s1",
        ['-', '-', 'G', 'T', 'A']⟩ : AlignedSubjectQuery).aligned_subject.length := by
  have h := claim_C6_left_pad_and_equal_lengths
    (⟨"q1", "s1", 3, 5, 1, 3, 5, 3, ['G', 'T', 'A'], ['G', 'T', 'A']⟩ : Hit)
    ['A', 'C', 'G', 'T', 'A'] ['G', 'T', 'A'] 2 (by norm_num) rfl rfl
  refine ⟨h.1.trans ?_, ?_⟩
  · rfl
  · exact h.2
      ⟨fun _ => some ['A', 'C', 'G', 'T', 'A'], fun _ => some ['G', 'T', 'A'],
        fun q s => (q, s)⟩
      ⟨"q1", "s1", 3, 5, 1, 3, 5, 3, ['G', 'T', 'A'], ['G', 'T', 'A']⟩
      ['A', 'C', 'G', 'T', 'A'] ['G', 'T', 'A'] _
      rfl rfl rfl rfl rfl rfl (by norm_num) (by norm_num) (by norm_num)
      (by norm_num) (by norm_num) (by norm_num) rfl rfl

/-- **C7**: for a global hit (`qstart = sstart = 1`, `qend = qlen`,
`send = slen`), extension returns the hit's aligned substrings unchanged,
and (given the search-tool invariant that the ungapped length of each
aligned substring equals the covered span) the result's `query_len` and
`subject_len` equal the hit's `qlen` and `slen`. -/
theorem claim_C7_global_hit_returned_unchanged (x : SearchBlast.BlastExtender)
    (hit : Hit) (hg : is_global hit = true)
    (hqc : ((hit.qseq.countP fun c => decide (c ≠ '-')) : ℤ) =
      hit.qend - hit.qstart + 1)
    (hsc : ((hit.sseq.countP fun c => decide (c ≠ '-')) : ℤ) =
      hit.send - hit.sstart + 1) :
    extend_hit x hit =
      Except.ok ⟨hit.qseqid, hit.qseq, hit.sseqid, hit.sseq⟩ ∧
    ((⟨hit.qseqid, hit.qseq, hit.sseqid,
        hit.sseq⟩ : AlignedSubjectQuery).query_len : ℤ) = hit.qlen ∧
    ((⟨hit.qseqid, hit.qseq, hit.sseqid,
        hit.sseq⟩ : AlignedSubjectQuery).subject_len : ℤ) = hit.slen := by
  have hg' := hg
  simp only [is_global, Bool.and_eq_true, decide_eq_true_eq] at hg'
  obtain ⟨⟨⟨hq1, hs1⟩, hqe⟩, hse⟩ := hg'
  refine ⟨by simp [extend_hit, hg], ?_, ?_⟩
  · simp only [AlignedSubjectQuery.query_len]
    omega
  · simp only [AlignedSubjectQuery.subject_len]
    omega

/-- Witness for C7 at a global hit of length 3 with one gap column in the
query row (`qlen = 2`, `slen = 3`). -/
theorem claim_C7_witness :
    is_global (⟨"q1", "s1", 1, 2, 1, 3, 2, 3, ['A', '-', 'G'],
      ['A', 'C', 'G']⟩ : Hit) = true ∧
    extend_hit
      (⟨fun _ => some ['A', 'G'], fun _ => some ['A', 'C', 'G'],
        fun q s => (q, s)⟩ : SearchBlast.BlastExtender)
      (⟨"q1", "s1", 1, 2, 1, 3, 2, 3, ['A', '-', 'G'], ['A', 'C', 'G']⟩ : Hit) =
      Except.ok ⟨"q1", ['A', '-', 'G'], "s1", ['A', 'C', 'G']⟩ ∧
    ((⟨"q1", ['A', '-', 'G'], "s1",
        ['A', 'C', 'G']⟩ : AlignedSubjectQuery).query_len : ℤ) = 2 ∧
    ((⟨"q1", ['A', '-', 'G'], "s1",
        ['A', 'C', 'G']⟩ : AlignedSubjectQuery).subject_len : ℤ) = 3 := by
  have h := claim_C7_global_hit_returned_unchanged
    ⟨fun _ => some ['A', 'G'], fun _ => some ['A', 'C', 'G'], fun q s => (q, s)⟩
    (⟨"q1", "s1", 1, 2, 1, 3, 2, 3, ['A', '-', 'G'], ['A', 'C', 'G']⟩ : Hit)
    rfl (by rfl) (by rfl)
  exact ⟨rfl, h.1, h.2.1, h.2.2⟩
